import Mathlib

/-!
# Verification of the vsc-filesystems quota pipeline

Shallow embedding of the core of `hpcugent/vsc-filesystems`:

* the grace-period decoder of `bin/dquota.py` (`GPFS_GRACE_REGEX`,
  `GPFS_NOGRACE_REGEX` and the decoding logic of `_update_quota_entity`);
* the quota entity model of `lib/vsc/filesystem/quota/entities.py`
  (`QuotaInformation`, `QuotaEntity.update`, `QuotaEntity.exceeds`);
* the tabular `-Y` output parser and field assembler of
  `lib/vsc/filesystem/gpfs.py` (`split_output_lines`, `_executeY`,
  `fixup_executeY_line`, `_assemble_fields`, `list_quota`);
* the notification dedup decision of `bin/dquota.py`
  (`notify_exceeding_items` over `FileCache.update`).

Python strings are embedded as `List Char` (wrapped in `String` at the
boundaries), Python `int` as `Int`, machine-independent counts as `Nat`.
Fallible Python code (`raiseException`, uncaught `IndexError`) is embedded
with `Option`/`Except`.
-/

namespace VscFs

/-! ## Python string primitives

These model the exact CPython semantics of the string operations the
source uses: `str.split(sep)`, `str.strip()`, `str.endswith`,
`str.rstrip(chars)` (which strips a character *set*). -/

/-- Python whitespace (`str.strip` default set and the `\s` regex class). -/
def isPyWS (c : Char) : Bool :=
  c = ' ' || c = '\t' || c = '\n' || c = '\x0d' || c = '\x0b' || c = '\x0c'

/-- Python `s.strip()`: remove leading and trailing whitespace. -/
def pyStrip (s : List Char) : List Char :=
  ((s.dropWhile isPyWS).reverse.dropWhile isPyWS).reverse

/-- Python `s.split(sep)` for a one-character separator: always returns at
least one (possibly empty) chunk, and keeps empty chunks. -/
def pySplitChar (sep : Char) : List Char → List (List Char)
  | [] => [[]]
  | c :: cs =>
    if c = sep then [] :: pySplitChar sep cs
    else
      match pySplitChar sep cs with
      | [] => [[c]]
      | g :: gs => (c :: g) :: gs

/-- Python `s.endswith(t)`. -/
def pyEndsWith (s t : List Char) : Bool :=
  t.isSuffixOf s

/-- Python `s.rstrip(chars)`: drop from the right every character that is a
member of the character *set* `chars` (this is the set semantics the source
relies on in `fixup_executeY_line`). -/
def pyRstripSet (s chars : List Char) : List Char :=
  (s.reverse.dropWhile (fun c => chars.contains c)).reverse

/-- ASCII lower-casing, as used to model the case-insensitive regex flag. -/
def asciiLower (c : Char) : Char :=
  if 65 ≤ c.toNat && c.toNat ≤ 90 then Char.ofNat (c.toNat + 32) else c

/-- Does `pat` occur at the start of `s`? -/
def hasPrefixL : List Char → List Char → Bool
  | [], _ => true
  | _ :: _, [] => false
  | p :: ps, c :: cs => p = c && hasPrefixL ps cs

/-- Does `pat` occur as a contiguous substring of `s`?  This models
`re.search` for a plain literal pattern. -/
def hasSubstr (pat : List Char) : List Char → Bool
  | [] => hasPrefixL pat []
  | c :: cs => hasPrefixL pat (c :: cs) || hasSubstr pat cs

/-! ## The grace decoder (`bin/dquota.py`, lines 49-51 and 175-196)

```
GPFS_GRACE_REGEX = re.compile(
  r"(?P<days>\d+)\s*days?|(?P<hours>\d+)\s*hours?|(?P<minutes>\d+)\s*minutes?|(?P<expired>expired)")
GPFS_NOGRACE_REGEX = re.compile(r"none", re.I)
```

`re.search` finds the leftmost match; at a given position the alternatives
are tried left to right.  For this particular regex greedy digit matching
never needs backtracking (after giving a digit back, the next character is
a digit, which can start neither `\s*` nor a unit literal), so the scanner
below is an exact model. -/

/-- The `\d` class of the grace regex (ASCII decimal digits). -/
def isPyDigit (c : Char) : Bool :=
  48 ≤ c.toNat && c.toNat ≤ 57

/-- Decimal value of a digit string, as Python `int()`. -/
def digitsToNat (ds : List Char) : Nat :=
  ds.foldl (fun a c => 10 * a + (c.toNat - 48)) 0

/-- Which alternative of `GPFS_GRACE_REGEX` matched. -/
inductive GraceGroup where
  | days (n : Nat)
  | hours (n : Nat)
  | minutes (n : Nat)
  | expired
  deriving DecidableEq, Repr

/-- Match `\d+\s*<unit>` at the start of `cs`, returning the digit group. -/
def matchUnit (unit : List Char) (cs : List Char) : Option Nat :=
  let ds := cs.takeWhile isPyDigit
  if ds.isEmpty then none
  else if hasPrefixL unit ((cs.dropWhile isPyDigit).dropWhile isPyWS) then
    some (digitsToNat ds)
  else none

/-- Try the four alternatives of `GPFS_GRACE_REGEX` at the start of `cs`,
in the order they appear in the pattern. -/
def matchGraceAt (cs : List Char) : Option GraceGroup :=
  match matchUnit ['d', 'a', 'y'] cs with
  | some n => some (GraceGroup.days n)
  | none =>
    match matchUnit ['h', 'o', 'u', 'r'] cs with
    | some n => some (GraceGroup.hours n)
    | none =>
      match matchUnit ['m', 'i', 'n', 'u', 't', 'e'] cs with
      | some n => some (GraceGroup.minutes n)
      | none =>
        if hasPrefixL ['e', 'x', 'p', 'i', 'r', 'e', 'd'] cs then some GraceGroup.expired
        else none

/-- `GPFS_GRACE_REGEX.search`: leftmost match wins. -/
def searchGrace : List Char → Option GraceGroup
  | [] => none
  | c :: cs =>
    match matchGraceAt (c :: cs) with
    | some g => some g
    | none => searchGrace cs

/-- `GPFS_NOGRACE_REGEX.search`: case-insensitive search for `none`. -/
def containsNoneCI (cs : List Char) : Bool :=
  hasSubstr ['n', 'o', 'n', 'e'] (cs.map asciiLower)

/-- The grace decoding performed in `_update_quota_entity`
(`bin/dquota.py` lines 177-196): the no-grace regex is consulted first,
then the grace regex; any string matching neither makes the script raise
(`logger.raiseException`), which we embed as `none`. -/
def decodeGrace (s : String) : Option (Bool × Option Int) :=
  let cs := s.data
  if containsNoneCI cs then some (false, none)
  else
    match searchGrace cs with
    | some (GraceGroup.days n) => some (true, some ((n : Int) * 86400))
    | some (GraceGroup.hours n) => some (true, some ((n : Int) * 3600))
    | some (GraceGroup.minutes n) => some (true, some ((n : Int) * 60))
    | some GraceGroup.expired => some (true, some 0)
    | none => none

/-! ## The quota entity model (`lib/vsc/filesystem/quota/entities.py`)

`QuotaInformation` is a namedtuple; `QuotaEntity` keeps a dict
`quota_map` from fileset name (possibly `None`) to the snapshot and a
boolean `exceed` flag.  Python dict assignment replaces the value of an
existing key in place and appends new keys in insertion order. -/

structure QuotaInformation where
  timestamp : Option Int
  used : Int
  soft : Int
  hard : Int
  doubt : Int
  expired : Bool × Option Int
  files_used : Int
  files_soft : Int
  files_hard : Int
  files_doubt : Int
  files_expired : Bool × Option Int
  deriving DecidableEq, Repr

structure QuotaEntity where
  storage : String
  filesystem : String
  quota_map : List (Option String × QuotaInformation)
  exceed : Bool
  deriving DecidableEq, Repr

/-- `QuotaEntity.__init__`: empty map, flag down. -/
def QuotaEntity.mkEmpty (storage filesystem : String) : QuotaEntity :=
  { storage := storage, filesystem := filesystem, quota_map := [], exceed := false }

/-- Python `d[k] = v`: replace the first (unique) entry for `k`, keeping its
position, or append a fresh entry at the end. -/
def dictSet (m : List (Option String × QuotaInformation)) (k : Option String)
    (v : QuotaInformation) : List (Option String × QuotaInformation) :=
  match m with
  | [] => [(k, v)]
  | (k', v') :: rest =>
    if k' = k then (k, v) :: rest else (k', v') :: dictSet rest k v

/-- Python dict lookup in the fileset map. -/
def lookupQM : List (Option String × QuotaInformation) → Option String →
    Option QuotaInformation
  | [], _ => none
  | (k', v) :: rest, k => if k' = k then some v else lookupQM rest k

/-- `QuotaEntity.update` (entities.py lines 56-79), with the source's
parameter order and defaults.  Note the final line of the source:
`self.exceed = self.exceed or expired[0] or files_expired[0]`. -/
def QuotaEntity.update (e : QuotaEntity) (fileset : Option String)
    (used : Int := 0) (soft : Int := 0) (hard : Int := 0) (doubt : Int := 0)
    (expired : Bool × Option Int := (false, none))
    (files_used : Int := 0) (files_soft : Int := 0) (files_hard : Int := 0)
    (files_doubt : Int := 0)
    (files_expired : Bool × Option Int := (false, none))
    (timestamp : Option Int := none) : QuotaEntity :=
  { e with
    quota_map := dictSet e.quota_map fileset
      { timestamp := timestamp, used := used, soft := soft, hard := hard,
        doubt := doubt, expired := expired, files_used := files_used,
        files_soft := files_soft, files_hard := files_hard,
        files_doubt := files_doubt, files_expired := files_expired }
    exceed := e.exceed || expired.1 || files_expired.1 }

/-- `QuotaEntity.exceeds` (entities.py lines 81-83). -/
def QuotaEntity.exceeds (e : QuotaEntity) : Bool :=
  e.exceed

/-- One full argument tuple for `QuotaEntity.update`, used to reason about
sequences of update calls within one collection pass. -/
structure UpdateArgs where
  fileset : Option String
  used : Int
  soft : Int
  hard : Int
  doubt : Int
  expired : Bool × Option Int
  files_used : Int
  files_soft : Int
  files_hard : Int
  files_doubt : Int
  files_expired : Bool × Option Int
  timestamp : Option Int
  deriving DecidableEq, Repr

/-- Apply a sequence of `update` calls to an entity. -/
def applyUpdates (e : QuotaEntity) (us : List UpdateArgs) : QuotaEntity :=
  us.foldl
    (fun e u => e.update u.fileset u.used u.soft u.hard u.doubt u.expired
      u.files_used u.files_soft u.files_hard u.files_doubt u.files_expired
      u.timestamp)
    e

/-! ## `_update_quota_entity` (`bin/dquota.py`, lines 164-212)

The GPFS quota record; the numeric namedtuple fields arrive as decimal
strings and are converted with `int()`, which we embed directly as `Int`
fields.  `blockGrace` stays a string because the regexes run on it. -/

structure GpfsQuotaRec where
  blockUsage : Int
  blockQuota : Int
  blockLimit : Int
  blockInDoubt : Int
  blockGrace : String
  filesetname : String
  deriving DecidableEq, Repr

/-- `fileset_name` resolution (dquota.py lines 198-201): an empty
`filesetname` is falsy, giving `None`; otherwise the fileset map of the
filesystem is consulted (embedded as the lookup function `fl`). -/
def filesetNameOf (fl : String → String) (q : GpfsQuotaRec) : Option String :=
  if q.filesetname ≠ "" then some (fl q.filesetname) else none

/-- `_update_quota_entity`: for each record, decode the grace string (a
failure raises, embedded as `none`) and call `entity.update` with SEVEN
positional arguments — `fileset_name`, the four block numbers, `expired`
and `timestamp` — exactly as the source does (dquota.py lines 204-210),
so the seventh argument lands in the `files_used` slot of `update`. -/
def updateQuotaEntity (fl : String → String) (e : QuotaEntity)
    (qs : List GpfsQuotaRec) (timestamp : Int) : Option QuotaEntity :=
  match qs with
  | [] => some e
  | q :: rest =>
    match decodeGrace q.blockGrace with
    | none => none
    | some expired =>
      updateQuotaEntity fl
        (e.update (filesetNameOf fl q) q.blockUsage q.blockQuota q.blockLimit
          q.blockInDoubt expired timestamp)
        rest timestamp

/-! ## Percent decoding and `split_output_lines` (`gpfs.py` lines 61-76) -/

/-- Value of one hex digit. -/
def hexVal (c : Char) : Option Nat :=
  if 48 ≤ c.toNat && c.toNat ≤ 57 then some (c.toNat - 48)
  else if 97 ≤ c.toNat && c.toNat ≤ 102 then some (c.toNat - 87)
  else if 65 ≤ c.toNat && c.toNat ≤ 70 then some (c.toNat - 55)
  else none

/-- Modelled from the spec: `percentdecode` is `vsc.utils.py2vs3.unquote`
(not in src); the spec describes it as decoding URL-style `%XX` escapes,
leaving invalid escapes untouched. -/
def percentDecode : List Char → List Char
  | [] => []
  | '%' :: h1 :: h2 :: rest =>
    match hexVal h1, hexVal h2 with
    | some a, some b => Char.ofNat (16 * a + b) :: percentDecode rest
    | _, _ => '%' :: percentDecode (h1 :: h2 :: rest)
  | c :: rest => c :: percentDecode rest

/-- `split_output_lines` (gpfs.py lines 61-76), for the string `out` that
`_executeY` passes it.  Note that the source computes
`header_ends_in_colon = out[0][-1] == ":"` where `out` is the whole output
string, so `out[0]` is its first *character*; an empty output, or an empty
line when the flag is down, raises `IndexError` (embedded as `none`). -/
def splitOutputLines (out : String) : Option (List (List String)) :=
  match out.data.head? with
  | none => none
  | some c0 =>
    let headerEndsInColon := c0 = ':'
    let lines := pySplitChar '\n' (pyStrip out.data)
    lines.mapM (fun x => do
      let cleaned ←
        if headerEndsInColon then some x
        else
          match x.getLast? with
          | none => none
          | some lc => some (if lc = ':' then x.dropLast else x)
      some ((pySplitChar ':' (pyStrip cleaned)).map (fun f => String.mk (percentDecode f))))

/-! ## Header scan of `_executeY` (`gpfs.py` lines 267-296) -/

/-- The canonical 6-field header prefix. -/
def expectedHeader (name : String) : List String :=
  [name, "", "HEADER", "version", "reserved", "reserved"]

/-- `dropwhile(lambda line: expectedheader != line[:6], what)`. -/
def retainedRows (name : String) (what : List (List String)) : List (List String) :=
  what.dropWhile (fun l => decide (expectedHeader name ≠ l.take 6))

/-! ## Ragged-row repair (`gpfs.py` lines 155-236) -/

/-- Modelled from the spec: `find_sublist_index` from `vsc.utils.missing`
(not in src); the spec calls it "sublist search": the first position at
which `sub` occurs as a contiguous sublist of `ls`. -/
def findSublistIndex (ls sub : List String) : Option Nat :=
  (List.range (ls.length + 1 - sub.length)).find?
    (fun i => decide ((ls.drop i).take sub.length = sub))

/-- `fixup_executeY_line` (gpfs.py lines 155-200).  All `raiseException`
calls and uncaught `IndexError`s are embedded as `.error`. -/
def fixupExecuteYLine (fields : List String) (descriptionCount : Nat) :
    Except String (List (List String)) :=
  let expectedStartFields := fields.take 6
  let ls := fields.drop 6
  let subLs := expectedStartFields.drop 1
  match findSublistIndex ls subLs with
  | none => .error "Too many fields: cannot find match for the start field"
  | some subIndex =>
    let line := expectedStartFields ++ ls.take subIndex
    let remainder := ls.drop subIndex
    if line.length > descriptionCount then
      .error "After fixing, line still has too many fields"
    else
      match fields.head?, remainder with
      | none, _ => .error "IndexError: fields[0]"
      | some _, [] => .error "IndexError: remainder[0]"
      | some firstField, r0 :: _ =>
        if r0 = firstField then
          .ok [line ++ List.replicate (descriptionCount - line.length) "", remainder]
        else
          match line.getLast? with
          | none => .error "IndexError: line[-1]"
          | some lastF =>
            if pyEndsWith lastF.data firstField.data then
              let line2 := line.dropLast ++
                [String.mk (pyRstripSet lastF.data firstField.data)]
              .ok [line2 ++ List.replicate (descriptionCount - line2.length) "",
                firstField :: remainder]
            else
              .error "Failed to find the initial field of the line"

/-- One entry of the mutable `fields` list of `_assemble_fields`: the
`tag` models Python object identity of the row list (in-place `extend`
mutates the object wherever it currently sits), `cnt` is the count stored
in the tuple when the entry was built (it goes stale after `extend`, just
as in the source), `row` is the current value of the row list. -/
structure Cell where
  tag : Nat
  cnt : Nat
  row : List String
  deriving DecidableEq, Repr

/-- In-place mutation of the row object with identity `t` (no-op if the
object is no longer in the list, exactly like Python). -/
def updateRowByTag (st : List Cell) (t : Nat) (r : List String) : List Cell :=
  st.map (fun c => if c.tag = t then { c with row := r } else c)

/-- `fields.index((field_count, line))`: first entry whose stored tuple
compares equal by value. -/
def findCellIdx (st : List Cell) (cnt : Nat) (row : List String) : Option Nat :=
  st.findIdx? (fun c => c.cnt == cnt && c.row == row)

/-- `fields[i:i + 1] = new`: splice. -/
def spliceAt (st : List Cell) (i : Nat) (newCells : List Cell) : List Cell :=
  st.take i ++ newCells ++ st.drop (i + 1)

/-- Order-preserving duplicate removal (`nub` from `vsc.utils.missing`,
not in src; only the length of its result is consulted by the source),
implemented with a seen-accumulator. -/
def nubAux (seen : List Nat) : List Nat → List Nat
  | [] => []
  | x :: xs => if x ∈ seen then nubAux seen xs else x :: nubAux (x :: seen) xs

/-- Order-preserving duplicate removal. -/
def nub (l : List Nat) : List Nat :=
  nubAux [] l

/-- Fresh tags and current cells while the repair loop runs. -/
structure RepairState where
  cells : List Cell
  fresh : Nat
  deriving Repr

/-- Loop body of the repair phase of `_assemble_fields`
(gpfs.py lines 210-223) for one tuple `(origCnt, origRow)` of the
iterated snapshot `fields[1:]`, whose row object carries identity `t`.
A short row is extended in place with `[''] * (maximum_field_count -
field_count)`; a long row is repaired and spliced over the first
value-equal entry (a failed `fields.index` would be an uncaught
`ValueError`). -/
def repairStep (descC maxC : Nat) (st : RepairState) (t origCnt : Nat)
    (origRow : List String) : Except String RepairState :=
  if origCnt = descC then .ok st
  else if origCnt < descC then
    .ok { st with
      cells := updateRowByTag st.cells t
        (origRow ++ List.replicate (maxC - origCnt) "") }
  else
    match fixupExecuteYLine origRow descC with
    | .error e => .error e
    | .ok fixedRows =>
      match findCellIdx st.cells origCnt origRow with
      | none => .error "ValueError: list.index"
      | some i =>
        .ok { cells := spliceAt st.cells i
                ((fixedRows.enum).map (fun p => Cell.mk (st.fresh + p.1) p.2.length p.2)),
              fresh := st.fresh + fixedRows.length }

/-- The repair phase of `_assemble_fields` (gpfs.py lines 205-223):
runs only when the rows do not all share one field count; iterates over a
snapshot of `fields[1:]` while mutating the live list. -/
def repairPass (rows : List (List String)) : Except String (List Cell) :=
  let counts := rows.map List.length
  let cells0 := rows.enum.map (fun p => Cell.mk p.1 p.2.length p.2)
  if (nub counts).length ≤ 1 then .ok cells0
  else
    match counts with
    | [] => .ok cells0
    | c0 :: _ =>
      let maxC := counts.foldl max 0
      ((rows.enum.drop 1).foldlM
        (fun st (p : Nat × List String) => repairStep c0 maxC st p.1 p.2.length p.2)
        ⟨cells0, rows.length⟩).map RepairState.cells

/-! ## Column assembly (`gpfs.py` lines 225-236) via the list monoid -/

/-- Column-oriented result map: insertion-ordered association list, as a
Python dict of column name to list of values. -/
abbrev ColMap := List (String × List String)

/-- Python dict lookup (first, and in a dict only, entry for `k`). -/
def lookupCol : ColMap → String → Option (List String)
  | [], _ => none
  | (k', v) :: rest, k => if k' = k then some v else lookupCol rest k

/-- `MonoidDict.__setitem__` with the list-append monoid
(`Monoid([], lambda xs, ys: xs + ys)`): append to an existing key's list,
or insert the key at the end. -/
def appendCol (m : ColMap) (k : String) (v : List String) : ColMap :=
  match m with
  | [] => [(k, v)]
  | (k', v') :: rest =>
    if k' = k then (k', v' ++ v) :: rest else (k', v') :: appendCol rest k v

/-- The regrouping loop of `_assemble_fields` (gpfs.py lines 226-236):
for every (index, name) of the description row past field 6, skipping
empty names, append `line[6 + index]` of every data row; an out-of-range
access is the `IndexError` the source converts to a hard failure. -/
def assembleColumns (cells : List Cell) : Except String ColMap :=
  match cells with
  | [] => .error "Failed to regroup data"
  | c0 :: dataCells =>
    (c0.row.drop 6).enum.foldlM
      (fun res (p : Nat × String) =>
        if p.2 = "" then .ok res
        else
          dataCells.foldlM
            (fun res c =>
              match c.row.get? (6 + p.1) with
              | none => .error "Failed to regroup data"
              | some v => .ok (appendCol res p.2 [v]))
            res)
      []

/-- `_assemble_fields` (gpfs.py lines 202-236): repair, then regroup. -/
def assembleFields (rows : List (List String)) : Except String ColMap :=
  (repairPass rows).bind assembleColumns

/-- Result shape of `_executeY`: the primary path returns one column map;
the `mmhealth` fallback returns one map per `State`/`Event` row type. -/
inductive ExecYResult where
  | primary (res : ColMap)
  | byType (res : List (String × ColMap))
  deriving Repr

/-- `[(len(x), x) for x in what if x[1] == typ]` (gpfs.py line 285):
select the rows whose field 1 is `typ`; a row with fewer than 2 fields is
the `IndexError` the source re-raises. -/
def rowsOfType (what : List (List String)) (typ : String) :
    Except String (List (List String)) :=
  match what with
  | [] => .ok []
  | x :: rest =>
    match x.get? 1 with
    | none => .error "No valid lines for output"
    | some f1 =>
      (rowsOfType rest typ).map (fun rs => if f1 = typ then x :: rs else rs)

/-- `_executeY` (gpfs.py lines 239-296), from the raw output string on:
split, scan for the canonical header, assemble; with the `State`/`Event`
fallback when the canonical header never occurs. -/
def executeY (name : String) (out : String) : Except String ExecYResult :=
  match splitOutputLines out with
  | none => .error "IndexError in split_output_lines"
  | some what =>
    let retained := retainedRows name what
    if retained.length ≠ 0 then
      (assembleFields retained).map ExecYResult.primary
    else
      match rowsOfType what "State" with
      | .error e => .error e
      | .ok stateRows =>
        if stateRows.length ≠ 0 then
          match assembleFields stateRows with
          | .error e => .error e
          | .ok resState =>
            match rowsOfType what "Event" with
            | .error e => .error e
            | .ok eventRows =>
              if eventRows.length ≠ 0 then
                match assembleFields eventRows with
                | .error e => .error e
                | .ok resEvent =>
                  .ok (.byType [("State", resState), ("Event", resEvent)])
              else .error "No valid lines of header type Event"
        else .error "No valid lines of header type State"

/-! ## Per-device merge of `list_quota` (`gpfs.py` lines 375-381) -/

/-- `info[key] = value` for every `(key, value)` of one device's result:
the `MonoidDict` ordered-append merge (`Monoid`/`MonoidDict` are in
`vsc.utils.missing`, not in src; modelled from the spec's "explicit
ordered-append merge"). -/
def mergeColMap (a b : ColMap) : ColMap :=
  b.foldl (fun acc p => appendCol acc p.1 p.2) a

/-- The device loop of `list_quota`: merge each device's column map into
the accumulated one, in device-iteration order. -/
def mergeDeviceResults (ms : List ColMap) : ColMap :=
  ms.foldl mergeColMap []

/-- Keys of a column map, in insertion order. -/
def colKeys (m : ColMap) : List String :=
  m.map (·.1)

/-- Total lookup with the monoid's neutral element. -/
def lookupColD (m : ColMap) (k : String) : List String :=
  (lookupCol m k).getD []

/-- Python `==` on dicts ignores insertion order: equality is agreement of
the key-to-value mapping. -/
def pyDictEq (a b : ColMap) : Prop :=
  ∀ k, lookupCol a k = lookupCol b k

/-! ## Notification dedup (`bin/dquota.py` lines 62 and 446-473) -/

/-- `QUOTA_NOTIFICATION_CACHE_THRESHOLD = 7 * 86400` (dquota.py line 62). -/
def QUOTA_NOTIFICATION_CACHE_THRESHOLD : Int := 7 * 86400

/-- One persisted cache entry: the last-seen quota snapshot and the
`lastNotifiedAt` timestamp. -/
structure CacheEntry (α : Type) where
  data : α
  ts : Int
  deriving DecidableEq, Repr

/-- The persisted notification cache, keyed by subject. -/
abbrev NotifyCache (α : Type) := List (String × CacheEntry α)

def lookupCache {α : Type} : NotifyCache α → String → Option (CacheEntry α)
  | [], _ => none
  | (k', e) :: rest, k => if k' = k then some e else lookupCache rest k

def setCache {α : Type} (c : NotifyCache α) (k : String) (e : CacheEntry α) :
    NotifyCache α :=
  match c with
  | [] => [(k, e)]
  | (k', e') :: rest =>
    if k' = k then (k, e) :: rest else (k', e') :: setCache rest k e

/-- Modelled from the spec: `FileCache.update` (`vsc.utils.cache`, not in
src).  Spec §4.5: no prior entry for the key ⇒ `true` and the entry is
written with `lastNotifiedAt = now`; a prior entry with
`now - lastNotifiedAt < threshold` ⇒ `false` and no write; threshold
elapsed ⇒ `true` and the entry is refreshed to `now` regardless of
whether the data changed. -/
def cacheUpdate {α : Type} (c : NotifyCache α) (key : String) (data : α)
    (threshold : Int) (now : Int) : Bool × NotifyCache α :=
  match lookupCache c key with
  | none => (true, setCache c key ⟨data, now⟩)
  | some e =>
    if now - e.ts < threshold then (false, c)
    else (true, setCache c key ⟨data, now⟩)

/-- The loop of `notify_exceeding_items` (dquota.py lines 464-468):
`updated = cache.update(item, quota, QUOTA_NOTIFICATION_CACHE_THRESHOLD)`,
and `notify` fires exactly when `updated` is true.  Returns the notified
items in order together with the final cache. -/
def notifyStep {α : Type} (now : Int)
    (acc : List (String × α) × NotifyCache α) (it : String × α) :
    List (String × α) × NotifyCache α :=
  let r := cacheUpdate acc.2 it.1 it.2 QUOTA_NOTIFICATION_CACHE_THRESHOLD now
  (if r.1 then acc.1 ++ [it] else acc.1, r.2)

def notifyExceedingItems {α : Type} (cache : NotifyCache α) (now : Int)
    (items : List (String × α)) : List (String × α) × NotifyCache α :=
  items.foldl (notifyStep now) ([], cache)

/-! ## Helper lemmas -/

theorem takeWhile_append_all {p : Char → Bool} {ds rest : List Char}
    (h : ∀ c ∈ ds, p c = true) :
    List.takeWhile p (ds ++ rest) = ds ++ List.takeWhile p rest := by
  induction ds with
  | nil => simp
  | cons d ds ih =>
    have hd : p d = true := h d (List.mem_cons_self d ds)
    simp only [List.cons_append, List.takeWhile_cons, hd, if_true]
    rw [ih (fun c hc => h c (List.mem_cons_of_mem d hc))]

theorem dropWhile_append_all {p : Char → Bool} {ds rest : List Char}
    (h : ∀ c ∈ ds, p c = true) :
    List.dropWhile p (ds ++ rest) = List.dropWhile p rest := by
  induction ds with
  | nil => simp
  | cons d ds ih =>
    have hd : p d = true := h d (List.mem_cons_self d ds)
    simp only [List.cons_append, List.dropWhile_cons, hd, if_true]
    exact ih (fun c hc => h c (List.mem_cons_of_mem d hc))

theorem hasPrefixL_mem {pat t : List Char} (h : hasPrefixL pat t = true) :
    ∀ c ∈ pat, c ∈ t := by
  induction pat generalizing t with
  | nil => intro c hc; simp at hc
  | cons p ps ih =>
    cases t with
    | nil => simp [hasPrefixL] at h
    | cons a t =>
      simp only [hasPrefixL, Bool.and_eq_true, decide_eq_true_eq] at h
      intro c hc
      rcases List.mem_cons.1 hc with hc | hc
      · exact hc ▸ h.1 ▸ List.mem_cons_self a t
      · exact List.mem_cons_of_mem a (ih h.2 c hc)

theorem hasSubstr_mem {pat s : List Char} (h : hasSubstr pat s = true) :
    ∀ c ∈ pat, c ∈ s := by
  induction s with
  | nil =>
    intro c hc
    cases pat with
    | nil => simp at hc
    | cons p ps => simp [hasSubstr, hasPrefixL] at h
  | cons a s ih =>
    simp only [hasSubstr, Bool.or_eq_true] at h
    intro c hc
    rcases h with h | h
    · exact hasPrefixL_mem h c hc
    · exact List.mem_cons_of_mem a (ih h c hc)

/-- If either `'o'` or `'n'` does not occur in `s`, the literal `none`
cannot be found in `s`. -/
theorem hasSubstr_none_eq_false {s : List Char}
    (h : 'o' ∉ s ∨ 'n' ∉ s) :
    hasSubstr ['n', 'o', 'n', 'e'] s = false := by
  by_contra hne
  have htrue : hasSubstr ['n', 'o', 'n', 'e'] s = true := by
    cases hsub : hasSubstr ['n', 'o', 'n', 'e'] s with
    | false => exact absurd hsub hne
    | true => rfl
  rcases h with h | h
  · exact h (hasSubstr_mem htrue 'o' (by decide))
  · exact h (hasSubstr_mem htrue 'n' (by decide))

theorem asciiLower_map_digits {ds : List Char} (h : ∀ c ∈ ds, isPyDigit c = true) :
    ds.map asciiLower = ds := by
  induction ds with
  | nil => rfl
  | cons d ds ih =>
    have hd : isPyDigit d = true := h d (List.mem_cons_self d ds)
    have : asciiLower d = d := by
      simp only [isPyDigit, Bool.and_eq_true, decide_eq_true_eq] at hd
      simp only [asciiLower]
      have : ¬(65 ≤ d.toNat && d.toNat ≤ 90) = true := by
        simp only [Bool.and_eq_true, decide_eq_true_eq, not_and, not_le]
        omega
      simp [this]
    rw [List.map_cons, this, ih (fun c hc => h c (List.mem_cons_of_mem d hc))]

theorem digit_not_o {ds : List Char} (h : ∀ c ∈ ds, isPyDigit c = true) :
    'o' ∉ ds := by
  intro hmem
  have := h 'o' hmem
  simp [isPyDigit] at this

theorem digit_not_n {ds : List Char} (h : ∀ c ∈ ds, isPyDigit c = true) :
    'n' ∉ ds := by
  intro hmem
  have := h 'n' hmem
  simp [isPyDigit] at this

/-- Evaluation of `matchUnit` on a digit string followed by a literal
suffix: the digits are consumed greedily and the unit is checked after
optional whitespace. -/
theorem matchUnit_digits_append {unit ds rest : List Char}
    (hne : ds ≠ []) (hd : ∀ c ∈ ds, isPyDigit c = true)
    (hrest : List.takeWhile isPyDigit rest = []) :
    matchUnit unit (ds ++ rest) =
      if hasPrefixL unit (List.dropWhile isPyWS (List.dropWhile isPyDigit rest))
      then some (digitsToNat ds) else none := by
  have htw : List.takeWhile isPyDigit (ds ++ rest) = ds := by
    rw [takeWhile_append_all hd, hrest, List.append_nil]
  have hdw : List.dropWhile isPyDigit (ds ++ rest) = List.dropWhile isPyDigit rest :=
    dropWhile_append_all hd
  simp only [matchUnit, htw, hdw]
  cases ds with
  | nil => exact absurd rfl hne
  | cons d ds => simp

theorem matchUnit_digits_append_pos {unit ds rest : List Char}
    (hne : ds ≠ []) (hd : ∀ c ∈ ds, isPyDigit c = true)
    (hrest : List.takeWhile isPyDigit rest = [])
    (hpre : hasPrefixL unit (List.dropWhile isPyWS (List.dropWhile isPyDigit rest)) = true) :
    matchUnit unit (ds ++ rest) = some (digitsToNat ds) := by
  rw [matchUnit_digits_append hne hd hrest, if_pos hpre]

theorem matchUnit_digits_append_neg {unit ds rest : List Char}
    (hne : ds ≠ []) (hd : ∀ c ∈ ds, isPyDigit c = true)
    (hrest : List.takeWhile isPyDigit rest = [])
    (hpre : hasPrefixL unit (List.dropWhile isPyWS (List.dropWhile isPyDigit rest)) = false) :
    matchUnit unit (ds ++ rest) = none := by
  rw [matchUnit_digits_append hne hd hrest, if_neg]
  simp [hpre]

theorem matchGraceAt_days {ds : List Char} (hne : ds ≠ [])
    (hd : ∀ c ∈ ds, isPyDigit c = true) :
    matchGraceAt (ds ++ [' ', 'd', 'a', 'y', 's']) =
      some (GraceGroup.days (digitsToNat ds)) := by
  have h1 : matchUnit ['d', 'a', 'y'] (ds ++ [' ', 'd', 'a', 'y', 's']) =
      some (digitsToNat ds) :=
    matchUnit_digits_append_pos hne hd (by decide) (by decide)
  simp only [matchGraceAt, h1]

theorem matchGraceAt_hours {ds : List Char} (hne : ds ≠ [])
    (hd : ∀ c ∈ ds, isPyDigit c = true) :
    matchGraceAt (ds ++ [' ', 'h', 'o', 'u', 'r', 's']) =
      some (GraceGroup.hours (digitsToNat ds)) := by
  have h1 : matchUnit ['d', 'a', 'y'] (ds ++ [' ', 'h', 'o', 'u', 'r', 's']) = none :=
    matchUnit_digits_append_neg hne hd (by decide) (by decide)
  have h2 : matchUnit ['h', 'o', 'u', 'r'] (ds ++ [' ', 'h', 'o', 'u', 'r', 's']) =
      some (digitsToNat ds) :=
    matchUnit_digits_append_pos hne hd (by decide) (by decide)
  simp only [matchGraceAt, h1, h2]

theorem matchGraceAt_minutes {ds : List Char} (hne : ds ≠ [])
    (hd : ∀ c ∈ ds, isPyDigit c = true) :
    matchGraceAt (ds ++ [' ', 'm', 'i', 'n', 'u', 't', 'e', 's']) =
      some (GraceGroup.minutes (digitsToNat ds)) := by
  have h1 : matchUnit ['d', 'a', 'y'] (ds ++ [' ', 'm', 'i', 'n', 'u', 't', 'e', 's']) =
      none :=
    matchUnit_digits_append_neg hne hd (by decide) (by decide)
  have h2 : matchUnit ['h', 'o', 'u', 'r'] (ds ++ [' ', 'm', 'i', 'n', 'u', 't', 'e', 's']) =
      none :=
    matchUnit_digits_append_neg hne hd (by decide) (by decide)
  have h3 : matchUnit ['m', 'i', 'n', 'u', 't', 'e']
      (ds ++ [' ', 'm', 'i', 'n', 'u', 't', 'e', 's']) = some (digitsToNat ds) :=
    matchUnit_digits_append_pos hne hd (by decide) (by decide)
  simp only [matchGraceAt, h1, h2, h3]

theorem searchGrace_of_matchGraceAt {cs : List Char} {g : GraceGroup}
    (hne : cs ≠ []) (h : matchGraceAt cs = some g) :
    searchGrace cs = some g := by
  cases cs with
  | nil => exact absurd rfl hne
  | cons c cs => simp only [searchGrace, h]

theorem containsNoneCI_digits_append {ds suffix : List Char}
    (hd : ∀ c ∈ ds, isPyDigit c = true)
    (hs : suffix.map asciiLower = suffix)
    (hchar : 'o' ∉ suffix ∨ 'n' ∉ suffix) :
    containsNoneCI (ds ++ suffix) = false := by
  unfold containsNoneCI
  rw [List.map_append, asciiLower_map_digits hd, hs]
  apply hasSubstr_none_eq_false
  rcases hchar with hc | hc
  · left
    intro hmem
    rcases List.mem_append.1 hmem with hm | hm
    · exact absurd (hd 'o' hm) (by decide)
    · exact hc hm
  · right
    intro hmem
    rcases List.mem_append.1 hmem with hm | hm
    · exact absurd (hd 'n' hm) (by decide)
    · exact hc hm

/-- C1: for every grace string in the documented grammar, the decoder used
by `_update_quota_entity` maps `<N> days` to `(expired, N*86400)`,
`<N> hours` to `(expired, N*3600)`, `<N> minutes` to `(expired, N*60)`,
`expired` to `(expired, 0)` and `none` (case-insensitively) to
`(not expired, absent)`; any string matching neither regex makes the
script raise (`FormatError`) instead of defaulting to not-expired. -/
theorem spec_C1_grace_decoder :
    (∀ ds : List Char, ds ≠ [] → (∀ c ∈ ds, isPyDigit c = true) →
      decodeGrace (String.mk (ds ++ [' ', 'd', 'a', 'y', 's'])) =
          some (true, some ((digitsToNat ds : Int) * 86400)) ∧
      decodeGrace (String.mk (ds ++ [' ', 'h', 'o', 'u', 'r', 's'])) =
          some (true, some ((digitsToNat ds : Int) * 3600)) ∧
      decodeGrace (String.mk (ds ++ [' ', 'm', 'i', 'n', 'u', 't', 'e', 's'])) =
          some (true, some ((digitsToNat ds : Int) * 60))) ∧
    decodeGrace "expired" = some (true, some 0) ∧
    (∀ s : String, s.data.map asciiLower = ['n', 'o', 'n', 'e'] →
      decodeGrace s = some (false, none)) ∧
    (∀ s : String, containsNoneCI s.data = false → searchGrace s.data = none →
      decodeGrace s = none) := by
  refine ⟨?_, by decide, ?_, ?_⟩
  · intro ds hne hd
    refine ⟨?_, ?_, ?_⟩
    · have hn : containsNoneCI (ds ++ [' ', 'd', 'a', 'y', 's']) = false :=
        containsNoneCI_digits_append hd (by decide) (Or.inl (by decide))
      have hsg := searchGrace_of_matchGraceAt
        (by cases ds with | nil => exact absurd rfl hne | cons a l => simp)
        (matchGraceAt_days hne hd)
      simp only [decodeGrace, hn, hsg, Bool.false_eq_true, if_false]
    · have hn : containsNoneCI (ds ++ [' ', 'h', 'o', 'u', 'r', 's']) = false :=
        containsNoneCI_digits_append hd (by decide) (Or.inr (by decide))
      have hsg := searchGrace_of_matchGraceAt
        (by cases ds with | nil => exact absurd rfl hne | cons a l => simp)
        (matchGraceAt_hours hne hd)
      simp only [decodeGrace, hn, hsg, Bool.false_eq_true, if_false]
    · have hn : containsNoneCI (ds ++ [' ', 'm', 'i', 'n', 'u', 't', 'e', 's']) = false :=
        containsNoneCI_digits_append hd (by decide) (Or.inl (by decide))
      have hsg := searchGrace_of_matchGraceAt
        (by cases ds with | nil => exact absurd rfl hne | cons a l => simp)
        (matchGraceAt_minutes hne hd)
      simp only [decodeGrace, hn, hsg, Bool.false_eq_true, if_false]
  · intro s h
    have hn : containsNoneCI s.data = true := by
      unfold containsNoneCI
      rw [h]
      decide
    simp only [decodeGrace, hn, if_true]
  · intro s h1 h2
    simp only [decodeGrace, h1, Bool.false_eq_true, if_false, h2]

/-- Witness for C1 at the spec's own examples. -/
theorem spec_C1_grace_decoder_witness :
    decodeGrace "7 days" = some (true, some 604800) ∧
    decodeGrace "3 hours" = some (true, some 10800) ∧
    decodeGrace "5 minutes" = some (true, some 300) ∧
    decodeGrace "expired" = some (true, some 0) ∧
    decodeGrace "NONE" = some (false, none) ∧
    decodeGrace "banana" = none := by
  obtain ⟨hunits, hexp, hnone, herr⟩ := spec_C1_grace_decoder
  obtain ⟨h7, _, _⟩ := hunits ['7'] (by decide) (by decide)
  obtain ⟨_, h3, _⟩ := hunits ['3'] (by decide) (by decide)
  obtain ⟨_, _, h5⟩ := hunits ['5'] (by decide) (by decide)
  refine ⟨?_, ?_, ?_, hexp, ?_, ?_⟩
  · rw [show ("7 days" : String) = String.mk (['7'] ++ [' ', 'd', 'a', 'y', 's']) from rfl,
      h7]
    decide
  · rw [show ("3 hours" : String) =
      String.mk (['3'] ++ [' ', 'h', 'o', 'u', 'r', 's']) from rfl, h3]
    decide
  · rw [show ("5 minutes" : String) =
      String.mk (['5'] ++ [' ', 'm', 'i', 'n', 'u', 't', 'e', 's']) from rfl, h5]
    decide
  · exact hnone "NONE" (by decide)
  · exact herr "banana" (by decide) (by decide)

theorem lookupQM_dictSet (m : List (Option String × QuotaInformation))
    (k : Option String) (v : QuotaInformation) :
    lookupQM (dictSet m k v) k = some v := by
  induction m with
  | nil => simp [dictSet, lookupQM]
  | cons p rest ih =>
    by_cases h : p.1 = k
    · simp [dictSet, lookupQM, h]
    · simp [dictSet, lookupQM, h, ih]

/-- C2 counterexample: overwriting the only expired fileset snapshot with
a non-expired one leaves `exceeds()` true, although no snapshot stored in
the fileset map has an expired flag set — the claimed "iff" is false. -/
theorem spec_C2_counterexample :
    ((((QuotaEntity.mkEmpty "storage" "fs").update (some "fset") 0 0 0 0
        (true, some 0) 0 0 0 0 (false, none) none).update (some "fset") 0 0 0 0
        (false, none) 0 0 0 0 (false, none) none).exceeds = true) ∧
    (∀ p ∈ (((QuotaEntity.mkEmpty "storage" "fs").update (some "fset") 0 0 0 0
        (true, some 0) 0 0 0 0 (false, none) none).update (some "fset") 0 0 0 0
        (false, none) 0 0 0 0 (false, none) none).quota_map,
      p.2.expired.1 = false ∧ p.2.files_expired.1 = false) := by
  decide

/-- C2 (amended): `exceeds()` is true iff at least one `update()` call
applied so far carried an expired flag (block or files dimension); the
flag is monotone over the update history, so overwriting the only expired
snapshot with a non-expired one does not clear it. -/
theorem spec_C2_exceeds_amended (e : QuotaEntity) (us : List UpdateArgs) :
    (applyUpdates e us).exceeds =
      (e.exceed || us.any (fun u => u.expired.1 || u.files_expired.1)) := by
  induction us generalizing e with
  | nil => simp [applyUpdates, QuotaEntity.exceeds]
  | cons u rest ih =>
    show (applyUpdates (e.update u.fileset u.used u.soft u.hard u.doubt u.expired
      u.files_used u.files_soft u.files_hard u.files_doubt u.files_expired
      u.timestamp) rest).exceeds = _
    rw [ih]
    simp [QuotaEntity.update, List.any_cons, Bool.or_assoc]

/-- C10: `_update_quota_entity` passes `timestamp` as the seventh
positional argument of `QuotaEntity.update`, so it binds to `files_used`;
the stored snapshot therefore has `timestamp = None` and `files_used`
equal to the collection timestamp. -/
theorem spec_C10_timestamp_binds_files_used (fl : String → String)
    (e : QuotaEntity) (q : GpfsQuotaRec) (ts : Int) (exp : Bool × Option Int)
    (h : decodeGrace q.blockGrace = some exp) :
    ∃ e', updateQuotaEntity fl e [q] ts = some e' ∧
      ∃ qi, lookupQM e'.quota_map (filesetNameOf fl q) = some qi ∧
        qi.timestamp = none ∧ qi.files_used = ts ∧
        qi.used = q.blockUsage ∧ qi.soft = q.blockQuota ∧
        qi.hard = q.blockLimit ∧ qi.doubt = q.blockInDoubt ∧
        qi.expired = exp := by
  refine ⟨e.update (filesetNameOf fl q) q.blockUsage q.blockQuota q.blockLimit
    q.blockInDoubt exp ts, ?_, ?_⟩
  · simp [updateQuotaEntity, h]
  · refine ⟨⟨none, q.blockUsage, q.blockQuota, q.blockLimit, q.blockInDoubt, exp,
      ts, 0, 0, 0, (false, none)⟩, ?_, rfl, rfl, rfl, rfl, rfl, rfl, rfl⟩
    exact lookupQM_dictSet e.quota_map (filesetNameOf fl q) _

/-- Witness for C10: a concrete record with grace string `none`. -/
theorem spec_C10_timestamp_binds_files_used_witness :
    ∃ e', updateQuotaEntity (fun _ => "gvo1") (QuotaEntity.mkEmpty "st" "fs")
        [⟨10, 20, 30, 1, "none", "0"⟩] 1234567 = some e' ∧
      ∃ qi, lookupQM e'.quota_map
          (filesetNameOf (fun _ => "gvo1") ⟨10, 20, 30, 1, "none", "0"⟩) = some qi ∧
        qi.timestamp = none ∧ qi.files_used = 1234567 ∧
        qi.used = 10 ∧ qi.soft = 20 ∧ qi.hard = 30 ∧ qi.doubt = 1 ∧
        qi.expired = (false, none) :=
  spec_C10_timestamp_binds_files_used (fun _ => "gvo1")
    (QuotaEntity.mkEmpty "st" "fs") ⟨10, 20, 30, 1, "none", "0"⟩ 1234567
    (false, none) (by decide)

theorem lookupCache_setCache {α : Type} (c : NotifyCache α) (k : String)
    (e : CacheEntry α) : lookupCache (setCache c k e) k = some e := by
  induction c with
  | nil => simp [setCache, lookupCache]
  | cons p rest ih =>
    by_cases h : p.1 = k
    · simp [setCache, lookupCache, h]
    · simp [setCache, lookupCache, h, ih]

theorem notifyFold_acc {α : Type} (now : Int) (items : List (String × α)) :
    ∀ (acc : List (String × α)) (c : NotifyCache α),
      items.foldl (notifyStep now) (acc, c) =
        (acc ++ (items.foldl (notifyStep now) ([], c)).1,
         (items.foldl (notifyStep now) ([], c)).2) := by
  induction items with
  | nil => intro acc c; simp
  | cons it rest ih =>
    intro acc c
    simp only [List.foldl_cons]
    rw [show notifyStep now (acc, c) it =
        (acc ++ (notifyStep now ([], c) it).1, (notifyStep now ([], c) it).2) by
      simp only [notifyStep]
      cases (cacheUpdate c it.1 it.2 QUOTA_NOTIFICATION_CACHE_THRESHOLD now).1 <;> simp]
    rw [ih (acc ++ (notifyStep now ([], c) it).1) (notifyStep now ([], c) it).2,
      ih (notifyStep now ([], c) it).1 (notifyStep now ([], c) it).2]
    simp

/-- C8: with threshold `T = QUOTA_NOTIFICATION_CACHE_THRESHOLD = 604800`,
the decision for an exceeding subject is: true with a fresh entry when the
subject is unknown; false (and no write) while `now - lastNotifiedAt < T`;
true with `lastNotifiedAt` refreshed to `now` once the threshold has
elapsed, regardless of the stored data; and `notify_exceeding_items`
sends a notification exactly when that decision is true. -/
theorem spec_C8_notification_decision {α : Type} (c : NotifyCache α)
    (key : String) (d : α) (now : Int) :
    QUOTA_NOTIFICATION_CACHE_THRESHOLD = 604800 ∧
    (lookupCache c key = none →
      cacheUpdate c key d QUOTA_NOTIFICATION_CACHE_THRESHOLD now =
        (true, setCache c key ⟨d, now⟩)) ∧
    (∀ e, lookupCache c key = some e → now - e.ts < 604800 →
      cacheUpdate c key d QUOTA_NOTIFICATION_CACHE_THRESHOLD now = (false, c)) ∧
    (∀ e, lookupCache c key = some e → 604800 ≤ now - e.ts →
      (cacheUpdate c key d QUOTA_NOTIFICATION_CACHE_THRESHOLD now).1 = true ∧
      lookupCache (cacheUpdate c key d QUOTA_NOTIFICATION_CACHE_THRESHOLD now).2 key =
        some ⟨d, now⟩) ∧
    (∀ (it : String × α) (rest : List (String × α)),
      notifyExceedingItems c now (it :: rest) =
        ((if (cacheUpdate c it.1 it.2 QUOTA_NOTIFICATION_CACHE_THRESHOLD now).1
            then [it] else []) ++
          (notifyExceedingItems
            (cacheUpdate c it.1 it.2 QUOTA_NOTIFICATION_CACHE_THRESHOLD now).2
            now rest).1,
         (notifyExceedingItems
            (cacheUpdate c it.1 it.2 QUOTA_NOTIFICATION_CACHE_THRESHOLD now).2
            now rest).2)) := by
  refine ⟨rfl, ?_, ?_, ?_, ?_⟩
  · intro h
    simp [cacheUpdate, h]
  · intro e he hlt
    rw [show QUOTA_NOTIFICATION_CACHE_THRESHOLD = 604800 from rfl] at *
    simp [cacheUpdate, he, hlt]
  · intro e he hge
    rw [show QUOTA_NOTIFICATION_CACHE_THRESHOLD = 604800 from rfl] at *
    have hnlt : ¬(now - e.ts < 604800) := not_lt.2 hge
    constructor
    · simp [cacheUpdate, he, hnlt]
    · simp only [cacheUpdate, he, hnlt, if_false]
      exact lookupCache_setCache c key ⟨d, now⟩
  · intro it rest
    show List.foldl (notifyStep now) (notifyStep now ([], c) it) rest = _
    rw [show notifyStep now ([], c) it =
        ((if (cacheUpdate c it.1 it.2 QUOTA_NOTIFICATION_CACHE_THRESHOLD now).1
          then [it] else []),
         (cacheUpdate c it.1 it.2 QUOTA_NOTIFICATION_CACHE_THRESHOLD now).2) by
      simp only [notifyStep]
      cases (cacheUpdate c it.1 it.2 QUOTA_NOTIFICATION_CACHE_THRESHOLD now).1 <;> simp]
    exact notifyFold_acc now rest _ _

/-- Witness for C8 at a concrete cache: unknown subject fires; one second
before the threshold it does not; one second after it fires again. -/
theorem spec_C8_notification_decision_witness :
    (cacheUpdate ([] : NotifyCache Nat) "vsc40001" 5
      QUOTA_NOTIFICATION_CACHE_THRESHOLD 1000 = (true, [("vsc40001", ⟨5, 1000⟩)])) ∧
    (cacheUpdate [("vsc40001", (⟨5, 1000⟩ : CacheEntry Nat))] "vsc40001" 5
      QUOTA_NOTIFICATION_CACHE_THRESHOLD (1000 + 604799) =
        (false, [("vsc40001", ⟨5, 1000⟩)])) ∧
    (cacheUpdate [("vsc40001", (⟨5, 1000⟩ : CacheEntry Nat))] "vsc40001" 7
      QUOTA_NOTIFICATION_CACHE_THRESHOLD (1000 + 604801)).1 = true ∧
    lookupCache (cacheUpdate [("vsc40001", (⟨5, 1000⟩ : CacheEntry Nat))] "vsc40001" 7
      QUOTA_NOTIFICATION_CACHE_THRESHOLD (1000 + 604801)).2 "vsc40001" =
        some ⟨7, 1000 + 604801⟩ := by
  refine ⟨?_, ?_, ?_, ?_⟩
  · exact (spec_C8_notification_decision ([] : NotifyCache Nat) "vsc40001" 5
      1000).2.1 (by decide)
  · exact (spec_C8_notification_decision [("vsc40001", (⟨5, 1000⟩ : CacheEntry Nat))]
      "vsc40001" 5 (1000 + 604799)).2.2.1 ⟨5, 1000⟩ (by decide) (by decide)
  · exact ((spec_C8_notification_decision [("vsc40001", (⟨5, 1000⟩ : CacheEntry Nat))]
      "vsc40001" 7 (1000 + 604801)).2.2.2.1 ⟨5, 1000⟩ (by decide) (by decide)).1
  · exact ((spec_C8_notification_decision [("vsc40001", (⟨5, 1000⟩ : CacheEntry Nat))]
      "vsc40001" 7 (1000 + 604801)).2.2.2.1 ⟨5, 1000⟩ (by decide) (by decide)).2

/-- C7 (code bug): the source computes `header_ends_in_colon` from
`out[0][-1]` where `out` is the whole output string, i.e. from the first
*character* of the output; for an output whose first *line* ends in a
colon (but does not start with one) the trailing colon is stripped from
every line, so the first line yields 5 fields although splitting it as
observed yields 6 — contradicting the claim and the repository's own
`test_split_output_lines_with_header_colon`, which expects field counts
`[6, 5, 5, 5, 5]`. -/
theorem spec_C7_code_behavior :
    splitOutputLines "this:is:the:header:line:\nand:here:is:line:1" =
      some [["this", "is", "the", "header", "line"],
        ["and", "here", "is", "line", "1"]] ∧
    (pySplitChar ':' ("this:is:the:header:line:".data)).length = 6 := by
  constructor
  · rfl
  · rfl

theorem dropWhile_head_not {α : Type} {p : α → Bool} (l : List α) :
    ∀ x, (l.dropWhile p).head? = some x → p x = false := by
  induction l with
  | nil => intro x hx; simp [List.dropWhile] at hx
  | cons a l ih =>
    intro x hx
    rw [List.dropWhile_cons] at hx
    cases hpa : p a with
    | true => exact ih x (by simpa [hpa] using hx)
    | false =>
      rw [hpa] at hx
      simp only [Bool.false_eq_true, if_false, List.head?_cons, Option.some.injEq] at hx
      subst hx
      exact hpa

/-- C6: `_executeY` retains exactly the suffix of the split rows starting
at the first row whose first 6 fields equal
`(toolName, "", "HEADER", "version", "reserved", "reserved")`: every
leading non-matching row is discarded by the forward scan, which tolerates
any number of preamble lines and leaves repeated header rows in the
retained block. -/
theorem spec_C6_header_scan (name out : String) (what : List (List String))
    (_hsplit : splitOutputLines out = some what) :
    (∃ pre, pre ++ retainedRows name what = what ∧
      (∀ l ∈ pre, expectedHeader name ≠ l.take 6) ∧
      (∀ l, (retainedRows name what).head? = some l →
        l.take 6 = expectedHeader name)) ∧
    (∀ (pre rest : List (List String)) (row : List String),
      (∀ l ∈ pre, expectedHeader name ≠ l.take 6) →
      row.take 6 = expectedHeader name →
      retainedRows name (pre ++ row :: rest) = row :: rest) := by
  constructor
  · refine ⟨what.takeWhile (fun l => decide (expectedHeader name ≠ l.take 6)), ?_, ?_, ?_⟩
    · unfold retainedRows
      exact List.takeWhile_append_dropWhile _ _
    · intro l hl
      have := List.mem_takeWhile_imp hl
      simp only [decide_eq_true_eq] at this
      exact this
    · intro l hl
      unfold retainedRows at hl
      have := dropWhile_head_not what l hl
      simp only [decide_eq_false_iff_not, ne_eq, not_not] at this
      exact this.symm
  · intro pre rest row hpre hrow
    induction pre with
    | nil =>
      simp only [List.nil_append, retainedRows, List.dropWhile_cons]
      rw [hrow]
      simp
    | cons a pre ih =>
      have ha : expectedHeader name ≠ a.take 6 := hpre a (List.mem_cons_self a pre)
      simp only [List.cons_append, retainedRows, List.dropWhile_cons]
      rw [if_pos (by simpa using ha)]
      exact ih (fun l hl => hpre l (List.mem_cons_of_mem a hl))

/-- Witness for C6: a preamble line is discarded, the header row and the
data rows after it are retained. -/
theorem spec_C6_header_scan_witness :
    retainedRows "mmrepquota"
      [["junk"],
       ["mmrepquota", "", "HEADER", "version", "reserved", "reserved", "name"],
       ["mmrepquota", "", "0", "1", "", "", "foo"]] =
      [["mmrepquota", "", "HEADER", "version", "reserved", "reserved", "name"],
       ["mmrepquota", "", "0", "1", "", "", "foo"]] := by
  have h := (spec_C6_header_scan "mmrepquota"
    "junk\nmmrepquota::HEADER:version:reserved:reserved:name\nmmrepquota::0:1:::foo"
    [["junk"],
     ["mmrepquota", "", "HEADER", "version", "reserved", "reserved", "name"],
     ["mmrepquota", "", "0", "1", "", "", "foo"]] rfl).2
  exact h [["junk"]] [["mmrepquota", "", "0", "1", "", "", "foo"]]
    ["mmrepquota", "", "HEADER", "version", "reserved", "reserved", "name"]
    (by decide) (by decide)

theorem getLast?_some_ne_nil {α : Type} {l : List α} {a : α}
    (h : l.getLast? = some a) : l ≠ [] := by
  intro hnil
  subst hnil
  simp at h

/-- C5: the line repair takes the first 6 fields of the offending row as
the expected sub-header and splits the row at the position where the
sub-header recurs in the remaining fields (sublist search on its tail,
with the first field recovered from the merge); when the sub-header
cannot be located, or the reconstructed first row still exceeds the
description count, it raises instead of dropping or truncating fields;
when it succeeds, the result is the split first row (padded to the
description count) together with the remainder. -/
theorem spec_C5_fixup_repair (fields : List String) (descC : Nat) :
    (findSublistIndex (fields.drop 6) ((fields.take 6).drop 1) = none →
      ∃ msg, fixupExecuteYLine fields descC = .error msg) ∧
    (∀ i, findSublistIndex (fields.drop 6) ((fields.take 6).drop 1) = some i →
      (fields.take 6 ++ (fields.drop 6).take i).length > descC →
      ∃ msg, fixupExecuteYLine fields descC = .error msg) ∧
    (∀ res, fixupExecuteYLine fields descC = .ok res →
      ∃ i first, findSublistIndex (fields.drop 6) ((fields.take 6).drop 1) = some i ∧
        (fields.take 6 ++ (fields.drop 6).take i).length ≤ descC ∧
        first.length = descC ∧
        (res = [first, (fields.drop 6).drop i] ∨
          ∃ f0, fields.head? = some f0 ∧ res = [first, f0 :: (fields.drop 6).drop i])) := by
  refine ⟨?_, ?_, ?_⟩
  · intro h
    refine ⟨"Too many fields: cannot find match for the start field", ?_⟩
    simp only [fixupExecuteYLine, h]
  · intro i hi hlen
    refine ⟨"After fixing, line still has too many fields", ?_⟩
    simp only [fixupExecuteYLine, hi]
    rw [if_pos hlen]
  · intro res hres
    cases hfind : findSublistIndex (fields.drop 6) ((fields.take 6).drop 1) with
    | none =>
      simp only [fixupExecuteYLine, hfind] at hres
      exact absurd hres (by simp)
    | some i =>
      simp only [fixupExecuteYLine, hfind] at hres
      by_cases hgt : (fields.take 6 ++ (fields.drop 6).take i).length > descC
      · rw [if_pos hgt] at hres
        exact absurd hres (by simp)
      · rw [if_neg hgt] at hres
        have hle : (fields.take 6 ++ (fields.drop 6).take i).length ≤ descC :=
          Nat.le_of_not_lt hgt
        split at hres
        · exact absurd hres (by simp)
        · exact absurd hres (by simp)
        · rename_i firstField r0 tail heq1 heq2
          by_cases hr0 : r0 = firstField
          · rw [if_pos hr0] at hres
            have hres' := Except.ok.inj hres
            refine ⟨i, fields.take 6 ++ (fields.drop 6).take i ++
              List.replicate (descC -
                (fields.take 6 ++ (fields.drop 6).take i).length) "",
              rfl, hle, ?_, Or.inl ?_⟩
            · simp only [List.length_append, List.length_replicate]
              simp only [List.length_append] at hle
              omega
            · rw [← hres', heq2]
          · rw [if_neg hr0] at hres
            split at hres
            · exact absurd hres (by simp)
            · rename_i lastF heqLast
              by_cases hew : pyEndsWith lastF.data firstField.data = true
              · rw [if_pos hew] at hres
                have hres' := Except.ok.inj hres
                have hne := getLast?_some_ne_nil heqLast
                refine ⟨i, (fields.take 6 ++ (fields.drop 6).take i).dropLast ++
                  [String.mk (pyRstripSet lastF.data firstField.data)] ++
                  List.replicate (descC -
                    ((fields.take 6 ++ (fields.drop 6).take i).dropLast ++
                      [String.mk (pyRstripSet lastF.data firstField.data)]).length) "",
                  rfl, hle, ?_, Or.inr ⟨firstField, heq1, ?_⟩⟩
                · have hpos := List.length_pos.2 hne
                  simp only [List.length_append, List.length_replicate,
                    List.length_dropLast, List.length_singleton] at hle hpos ⊢
                  omega
                · rw [← hres', heq2]
              · rw [if_neg hew] at hres
                exact absurd hres (by simp)

/-- Witness for C5: a row of 15 fields created by merging two 8-field
rows (the second row's first field glued onto the first row's last field)
is split back into the two rows, and a row whose sub-header tail never
recurs is rejected. -/
theorem spec_C5_fixup_repair_witness :
    (∃ msg, fixupExecuteYLine ["a", "b", "c", "d", "e", "f", "g"] 3 = .error msg) ∧
    (∃ i first,
      findSublistIndex
          (["mmlsfs", "", "0", "1", "", "", "x", "ymmlsfs", "", "0", "1", "", "",
            "u", "v"].drop 6)
          ((["mmlsfs", "", "0", "1", "", "", "x", "ymmlsfs", "", "0", "1", "", "",
            "u", "v"].take 6).drop 1) = some i ∧
        (["mmlsfs", "", "0", "1", "", "", "x", "ymmlsfs", "", "0", "1", "", "",
            "u", "v"].take 6 ++
          (["mmlsfs", "", "0", "1", "", "", "x", "ymmlsfs", "", "0", "1", "", "",
            "u", "v"].drop 6).take i).length ≤ 8 ∧
        first.length = 8 ∧
        ([["mmlsfs", "", "0", "1", "", "", "x", "y"],
          ["mmlsfs", "", "0", "1", "", "", "u", "v"]] =
            [first, (["mmlsfs", "", "0", "1", "", "", "x", "ymmlsfs", "", "0", "1",
              "", "", "u", "v"].drop 6).drop i] ∨
          ∃ f0, (["mmlsfs", "", "0", "1", "", "", "x", "ymmlsfs", "", "0", "1", "",
              "", "u", "v"] : List String).head? = some f0 ∧
            [["mmlsfs", "", "0", "1", "", "", "x", "y"],
              ["mmlsfs", "", "0", "1", "", "", "u", "v"]] =
              [first, f0 :: (["mmlsfs", "", "0", "1", "", "", "x", "ymmlsfs", "",
                "0", "1", "", "", "u", "v"].drop 6).drop i])) := by
  constructor
  · exact (spec_C5_fixup_repair ["a", "b", "c", "d", "e", "f", "g"] 3).1 (by rfl)
  · exact (spec_C5_fixup_repair
      ["mmlsfs", "", "0", "1", "", "", "x", "ymmlsfs", "", "0", "1", "", "", "u", "v"]
      8).2.2
      [["mmlsfs", "", "0", "1", "", "", "x", "y"],
       ["mmlsfs", "", "0", "1", "", "", "u", "v"]] (by rfl)

theorem foldl_max_init_le (l : List Nat) (a : Nat) : a ≤ l.foldl max a := by
  induction l generalizing a with
  | nil => simp
  | cons x l ih => exact le_trans (le_max_left a x) (ih (max a x))

theorem le_foldl_max {l : List Nat} {x : Nat} (h : x ∈ l) (a : Nat) :
    x ≤ l.foldl max a := by
  induction l generalizing a with
  | nil => simp at h
  | cons y l ih =>
    rcases List.mem_cons.1 h with rfl | h
    · exact le_trans (le_max_right a x) (foldl_max_init_le l (max a x))
    · exact ih h (max a y)

theorem foldl_max_le {l : List Nat} {a b : Nat} (ha : a ≤ b)
    (h : ∀ y ∈ l, y ≤ b) : l.foldl max a ≤ b := by
  induction l generalizing a with
  | nil => exact ha
  | cons x l ih =>
    exact ih (max_le ha (h x (List.mem_cons_self x l)))
      (fun y hy => h y (List.mem_cons_of_mem x hy))

/-- C4 (amended): when the repair loop meets a data row with fewer fields
than the description row, it right-pads it with empty strings up to the
*maximum* field count of the originally parsed rows
(`[''] * (maximum_field_count - field_count)`), which equals the
description row's field count exactly when no row exceeds that count. -/
theorem spec_C4_padding_amended (descC maxC : Nat) (st : RepairState)
    (t c : Nat) (r : List String) (hlt : c < descC) (hr : r.length = c) :
    repairStep descC maxC st t c r =
      .ok { st with
        cells := updateRowByTag st.cells t (r ++ List.replicate (maxC - c) "") } ∧
    (c ≤ maxC → (r ++ List.replicate (maxC - c) "").length = maxC) ∧
    (∀ counts : List Nat, counts.head? = some descC →
      (∀ x ∈ counts, x ≤ descC) → counts.foldl max 0 = descC) := by
  refine ⟨?_, ?_, ?_⟩
  · simp [repairStep, Nat.ne_of_lt hlt, hlt]
  · intro hc
    simp only [List.length_append, List.length_replicate, hr]
    omega
  · intro counts hhead hall
    have hmem : descC ∈ counts := by
      cases counts with
      | nil => simp at hhead
      | cons c0 rest =>
        simp only [List.head?_cons, Option.some.injEq] at hhead
        exact hhead ▸ List.mem_cons_self c0 rest
    exact le_antisymm (foldl_max_le (Nat.zero_le _) hall) (le_foldl_max hmem 0)

/-- Witness for C4's amended theorem at the counterexample's short row. -/
theorem spec_C4_padding_amended_witness :
    repairStep 8 15
      ⟨[⟨0, 8, ["mmlsfs", "", "HEADER", "version", "reserved", "reserved", "a", "b"]⟩,
        ⟨3, 8, ["mmlsfs", "", "0", "1", "", "", "x", "y"]⟩,
        ⟨4, 8, ["mmlsfs", "", "0", "1", "", "", "u", "v"]⟩,
        ⟨2, 7, ["mmlsfs", "", "0", "1", "", "", "z"]⟩], 5⟩
      2 7 ["mmlsfs", "", "0", "1", "", "", "z"] =
      .ok ⟨[⟨0, 8, ["mmlsfs", "", "HEADER", "version", "reserved", "reserved", "a", "b"]⟩,
        ⟨3, 8, ["mmlsfs", "", "0", "1", "", "", "x", "y"]⟩,
        ⟨4, 8, ["mmlsfs", "", "0", "1", "", "", "u", "v"]⟩,
        ⟨2, 7, ["mmlsfs", "", "0", "1", "", "", "z", "", "", "", "", "", "", "", ""]⟩],
        5⟩ ∧
    (["mmlsfs", "", "0", "1", "", "", "z"] ++ List.replicate (15 - 7) "").length = 15 ∧
    ([8, 15, 7] : List Nat).foldl max 0 = 15 ∧
    ([8, 7, 8] : List Nat).foldl max 0 = 8 := by
  have h := spec_C4_padding_amended 8 15
    ⟨[⟨0, 8, ["mmlsfs", "", "HEADER", "version", "reserved", "reserved", "a", "b"]⟩,
      ⟨3, 8, ["mmlsfs", "", "0", "1", "", "", "x", "y"]⟩,
      ⟨4, 8, ["mmlsfs", "", "0", "1", "", "", "u", "v"]⟩,
      ⟨2, 7, ["mmlsfs", "", "0", "1", "", "", "z"]⟩], 5⟩
    2 7 ["mmlsfs", "", "0", "1", "", "", "z"] (by decide) rfl
  refine ⟨?_, h.2.1 (by decide), by decide, h.2.2 [8, 7, 8] rfl (by decide)⟩
  rw [h.1]
  rfl

/-- C4 counterexample: an accepted raw output containing both a merged
(over-long) row and a short row; the short row is padded to the maximum
field count 15, not to the description count 8, so after padding its
length is 15 ≠ 8 — refuting the claim that padding stops at
`descriptionCount`.  The input is nevertheless accepted end to end. -/
theorem spec_C4_counterexample :
    splitOutputLines
        "mmlsfs::HEADER:version:reserved:reserved:a:b\nmmlsfs::0:1:::x:ymmlsfs::0:1:::u:v\nmmlsfs::0:1:::z" =
      some [["mmlsfs", "", "HEADER", "version", "reserved", "reserved", "a", "b"],
        ["mmlsfs", "", "0", "1", "", "", "x", "ymmlsfs", "", "0", "1", "", "", "u", "v"],
        ["mmlsfs", "", "0", "1", "", "", "z"]] ∧
    retainedRows "mmlsfs"
        [["mmlsfs", "", "HEADER", "version", "reserved", "reserved", "a", "b"],
         ["mmlsfs", "", "0", "1", "", "", "x", "ymmlsfs", "", "0", "1", "", "", "u", "v"],
         ["mmlsfs", "", "0", "1", "", "", "z"]] =
      [["mmlsfs", "", "HEADER", "version", "reserved", "reserved", "a", "b"],
       ["mmlsfs", "", "0", "1", "", "", "x", "ymmlsfs", "", "0", "1", "", "", "u", "v"],
       ["mmlsfs", "", "0", "1", "", "", "z"]] ∧
    repairPass
        [["mmlsfs", "", "HEADER", "version", "reserved", "reserved", "a", "b"],
         ["mmlsfs", "", "0", "1", "", "", "x", "ymmlsfs", "", "0", "1", "", "", "u", "v"],
         ["mmlsfs", "", "0", "1", "", "", "z"]] =
      .ok [⟨0, 8, ["mmlsfs", "", "HEADER", "version", "reserved", "reserved", "a", "b"]⟩,
        ⟨3, 8, ["mmlsfs", "", "0", "1", "", "", "x", "y"]⟩,
        ⟨4, 8, ["mmlsfs", "", "0", "1", "", "", "u", "v"]⟩,
        ⟨2, 7, ["mmlsfs", "", "0", "1", "", "", "z", "", "", "", "", "", "", "", ""]⟩] ∧
    (["mmlsfs", "", "0", "1", "", "", "z", "", "", "", "", "", "", "", ""] : List String).length = 15 ∧
    (["mmlsfs", "", "HEADER", "version", "reserved", "reserved", "a", "b"] : List String).length = 8 ∧
    (15 : Nat) ≠ 8 ∧
    executeY "mmlsfs"
        "mmlsfs::HEADER:version:reserved:reserved:a:b\nmmlsfs::0:1:::x:ymmlsfs::0:1:::u:v\nmmlsfs::0:1:::z" =
      .ok (.primary [("a", ["x", "u", "z"]), ("b", ["y", "v", ""])]) := by
  refine ⟨rfl, rfl, rfl, rfl, rfl, by decide, rfl⟩

theorem exceptBind_error {ε α β : Type} (e : ε) (f : α → Except ε β) :
    (Except.error e >>= f) = Except.error e := rfl

theorem exceptBind_ok {ε α β : Type} (a : α) (f : α → Except ε β) :
    (Except.ok a >>= f) = f a := rfl

theorem appendCol_appendCol (m : ColMap) (k : String) (v w : List String) :
    appendCol (appendCol m k v) k w = appendCol m k (v ++ w) := by
  induction m with
  | nil => simp [appendCol]
  | cons p rest ih =>
    obtain ⟨k', v'⟩ := p
    by_cases h : k' = k
    · simp [appendCol, h, List.append_assoc]
    · simp [appendCol, h, ih]

theorem appendCol_of_not_mem {m : ColMap} {k : String} (h : k ∉ colKeys m)
    (v : List String) : appendCol m k v = m ++ [(k, v)] := by
  induction m with
  | nil => simp [appendCol]
  | cons p rest ih =>
    obtain ⟨k', v'⟩ := p
    simp only [colKeys, List.map_cons, List.mem_cons, not_or] at h
    have hne : ¬(k' = k) := fun hh => h.1 hh.symm
    simp only [appendCol, hne, if_false, List.cons_append, List.cons.injEq, true_and]
    exact ih h.2

/-- Closed form of the inner regrouping loop of `_assemble_fields` for one
column name: on success it has appended exactly one value per data row. -/
theorem innerFold_ok (dataCells : List Cell) (idx : Nat) (n : String) :
    ∀ (res0 res1 : ColMap),
      dataCells.foldlM (fun res c =>
        match c.row.get? (6 + idx) with
        | none => Except.error "Failed to regroup data"
        | some v => Except.ok (appendCol res n [v])) res0 = Except.ok res1 →
      (dataCells = [] ∧ res1 = res0) ∨
      (∃ vs : List String, vs ≠ [] ∧ vs.length = dataCells.length ∧
        res1 = appendCol res0 n vs) := by
  induction dataCells with
  | nil =>
    intro res0 res1 h
    simp only [List.foldlM_nil] at h
    have h' : Except.ok res0 = Except.ok res1 := h
    exact Or.inl ⟨rfl, (Except.ok.inj h').symm⟩
  | cons c cells ih =>
    intro res0 res1 h
    rw [List.foldlM_cons] at h
    cases hg : c.row.get? (6 + idx) with
    | none =>
      rw [hg] at h
      rw [show (match (none : Option String) with
        | none => (Except.error "Failed to regroup data" : Except String ColMap)
        | some v => Except.ok (appendCol res0 n [v])) =
          Except.error "Failed to regroup data" from rfl, exceptBind_error] at h
      exact absurd h (by simp)
    | some v =>
      rw [hg] at h
      rw [show (match (some v : Option String) with
        | none => (Except.error "Failed to regroup data" : Except String ColMap)
        | some v => Except.ok (appendCol res0 n [v])) =
          Except.ok (appendCol res0 n [v]) from rfl, exceptBind_ok] at h
      rcases ih (appendCol res0 n [v]) res1 h with ⟨hnil, hres⟩ | ⟨vs, hvne, hvlen, hres⟩
      · subst hnil
        exact Or.inr ⟨[v], by simp, by simp, hres⟩
      · refine Or.inr ⟨v :: vs, by simp, by simp [hvlen], ?_⟩
        rw [hres, appendCol_appendCol, List.singleton_append]

/-- The outer regrouping loop of `_assemble_fields`: provided the nonempty
column names seen so far are fresh and pairwise distinct, every column of
the result holds exactly one value per data row. -/
theorem outerFold_lengths (dataCells : List Cell) :
    ∀ (ps : List (Nat × String)) (res0 res : ColMap),
      (∀ q ∈ res0, q.2.length = dataCells.length) →
      ((ps.map Prod.snd).filter (fun s => decide (s ≠ ""))).Nodup →
      (∀ q ∈ ps, q.2 ≠ "" → q.2 ∉ colKeys res0) →
      ps.foldlM (fun res (p : Nat × String) =>
        if p.2 = "" then Except.ok res
        else dataCells.foldlM (fun res c =>
          match c.row.get? (6 + p.1) with
          | none => Except.error "Failed to regroup data"
          | some v => Except.ok (appendCol res p.2 [v])) res) res0 = Except.ok res →
      ∀ q ∈ res, q.2.length = dataCells.length := by
  intro ps
  induction ps with
  | nil =>
    intro res0 res hlen _ _ h
    simp only [List.foldlM_nil] at h
    have h' : Except.ok res0 = Except.ok res := h
    exact (Except.ok.inj h') ▸ hlen
  | cons q ps ih =>
    intro res0 res hlen hnodup hfresh h
    rw [List.foldlM_cons] at h
    by_cases hq : q.2 = ""
    · rw [if_pos hq, exceptBind_ok] at h
      refine ih res0 res hlen ?_ ?_ h
      · simpa [hq] using hnodup
      · exact fun q' hq' => hfresh q' (List.mem_cons_of_mem q hq')
    · rw [if_neg hq] at h
      have hnodup' : (q.2 :: (ps.map Prod.snd).filter (fun s => decide (s ≠ ""))).Nodup := by
        simpa [hq] using hnodup
      obtain ⟨hq2notin, hnodupTail⟩ := List.nodup_cons.1 hnodup'
      cases hin : dataCells.foldlM (fun res c =>
          match c.row.get? (6 + q.1) with
          | none => Except.error "Failed to regroup data"
          | some v => Except.ok (appendCol res q.2 [v])) res0 with
      | error e =>
        rw [hin, exceptBind_error] at h
        exact absurd h (by simp)
      | ok res1 =>
        rw [hin, exceptBind_ok] at h
        rcases innerFold_ok dataCells q.1 q.2 res0 res1 hin with
          ⟨hcellsnil, rfl⟩ | ⟨vs, hvne, hvlen, rfl⟩
        · exact ih _ res hlen hnodupTail
            (fun q' hq' => hfresh q' (List.mem_cons_of_mem q hq')) h
        · have hq2fresh : q.2 ∉ colKeys res0 :=
            hfresh q (List.mem_cons_self q ps) hq
          rw [appendCol_of_not_mem hq2fresh vs] at h
          refine ih (res0 ++ [(q.2, vs)]) res ?_ hnodupTail ?_ h
          · intro q' hq'
            rcases List.mem_append.1 hq' with hm | hm
            · exact hlen q' hm
            · simp only [List.mem_singleton] at hm
              subst hm
              exact hvlen
          · intro q' hq' hq'ne
            have hkeys : colKeys (res0 ++ [(q.2, vs)]) = colKeys res0 ++ [q.2] := by
              simp [colKeys]
            rw [hkeys]
            intro hmem
            rcases List.mem_append.1 hmem with hm | hm
            · exact hfresh q' (List.mem_cons_of_mem q hq') hq'ne hm
            · simp only [List.mem_singleton] at hm
              apply hq2notin
              rw [← hm]
              exact List.mem_filter.2 ⟨List.mem_map_of_mem Prod.snd hq',
                by simpa using hq'ne⟩

/-- C3 (amended): whenever `_assemble_fields` accepts its input (no
exception), the result factors through the repair pass, and — provided
the nonempty column names of the description row are pairwise distinct —
every column list of the resulting map has length equal to the number of
data rows left after ragged-row repair and padding.  (Amendment: with a
*duplicated* nonempty column name the source appends one value per data
row per occurrence, so that column is longer than the row count; see the
counterexample.) -/
theorem spec_C3_equal_columns_amended (rows : List (List String)) (res : ColMap)
    (h : assembleFields rows = .ok res) :
    ∃ st, repairPass rows = .ok st ∧ assembleColumns st = .ok res ∧
      (∀ c0 dataCells, st = c0 :: dataCells →
        ((c0.row.drop 6).filter (fun s => decide (s ≠ ""))).Nodup →
        ∀ q ∈ res, q.2.length = dataCells.length) := by
  unfold assembleFields at h
  cases hrp : repairPass rows with
  | error e =>
    rw [hrp] at h
    have h' : (Except.error e : Except String ColMap) = Except.ok res := h
    exact absurd h' (by simp)
  | ok st =>
    rw [hrp] at h
    have h2 : assembleColumns st = Except.ok res := h
    refine ⟨st, rfl, h2, ?_⟩
    intro c0 dataCells hst hnodup
    subst hst
    simp only [assembleColumns] at h2
    refine outerFold_lengths dataCells (c0.row.drop 6).enum [] res (by simp) ?_
      (by simp [colKeys]) h2
    rw [List.enum_map_snd]
    exact hnodup

/-- Witness for C3: a well-formed two-column output with one data row. -/
theorem spec_C3_equal_columns_amended_witness :
    assembleFields [["t", "", "HEADER", "v", "r", "r", "a", "b"],
        ["t", "", "0", "1", "", "", "x", "y"]] =
      .ok [("a", ["x"]), ("b", ["y"])] ∧
    ∀ q ∈ ([("a", ["x"]), ("b", ["y"])] : ColMap), q.2.length = 1 := by
  obtain ⟨st, hrp, hac, himp⟩ := spec_C3_equal_columns_amended
    [["t", "", "HEADER", "v", "r", "r", "a", "b"],
     ["t", "", "0", "1", "", "", "x", "y"]]
    [("a", ["x"]), ("b", ["y"])] rfl
  have hst : st = ⟨0, 8, ["t", "", "HEADER", "v", "r", "r", "a", "b"]⟩ ::
      [⟨1, 8, ["t", "", "0", "1", "", "", "x", "y"]⟩] :=
    Except.ok.inj (hrp.symm.trans rfl)
  refine ⟨rfl, ?_⟩
  have := himp ⟨0, 8, ["t", "", "HEADER", "v", "r", "r", "a", "b"]⟩
    [⟨1, 8, ["t", "", "0", "1", "", "", "x", "y"]⟩] hst (by decide)
  exact this

/-- C3 counterexample: a raw output whose description row repeats the
nonempty column name `a` is accepted end to end, yet the column list for
`a` gets two values although there is only one data row after repair and
padding — the column lists are not all of the row count's length. -/
theorem spec_C3_counterexample :
    executeY "mmlsfs" "mmlsfs::HEADER:version:reserved:reserved:a:a\nmmlsfs::0:1:::x:y" =
      .ok (.primary [("a", ["x", "y"])]) ∧
    repairPass [["mmlsfs", "", "HEADER", "version", "reserved", "reserved", "a", "a"],
        ["mmlsfs", "", "0", "1", "", "", "x", "y"]] =
      .ok [⟨0, 8, ["mmlsfs", "", "HEADER", "version", "reserved", "reserved", "a", "a"]⟩,
        ⟨1, 8, ["mmlsfs", "", "0", "1", "", "", "x", "y"]⟩] ∧
    (["x", "y"] : List String).length = 2 ∧ (2 : Nat) ≠ 1 := by
  refine ⟨rfl, rfl, rfl, by decide⟩

theorem lookupCol_none_of_not_mem {m : ColMap} {k : String}
    (h : k ∉ colKeys m) : lookupCol m k = none := by
  induction m with
  | nil => rfl
  | cons p rest ih =>
    obtain ⟨k0, v0⟩ := p
    simp only [colKeys, List.map_cons, List.mem_cons, not_or] at h
    have : ¬(k0 = k) := fun hh => h.1 hh.symm
    simp only [lookupCol, this, if_false]
    exact ih h.2

theorem lookupColD_nil_of_not_mem {m : ColMap} {k : String}
    (h : k ∉ colKeys m) : lookupColD m k = [] := by
  simp [lookupColD, lookupCol_none_of_not_mem h]

theorem lookupColD_cons (k0 : String) (v0 : List String) (rest : ColMap)
    (k : String) :
    lookupColD ((k0, v0) :: rest) k = if k0 = k then v0 else lookupColD rest k := by
  by_cases h : k0 = k <;> simp [lookupColD, lookupCol, h]

theorem colKeys_cons (k0 : String) (v0 : List String) (rest : ColMap) :
    colKeys ((k0, v0) :: rest) = k0 :: colKeys rest := rfl

theorem lookupCol_appendCol (m : ColMap) (k k' : String) (v : List String) :
    lookupCol (appendCol m k v) k' =
      if k' = k then some (lookupColD m k ++ v) else lookupCol m k' := by
  induction m with
  | nil =>
    simp only [appendCol, lookupCol, lookupColD]
    by_cases h : k = k'
    · rw [if_pos h, if_pos h.symm]
      rfl
    · rw [if_neg h, if_neg (fun hh => h hh.symm)]
  | cons p rest ih =>
    obtain ⟨k0, v0⟩ := p
    by_cases h0 : k0 = k
    · rw [show appendCol ((k0, v0) :: rest) k v = (k0, v0 ++ v) :: rest from by
        simp [appendCol, h0]]
      by_cases h' : k0 = k'
      · rw [show lookupCol ((k0, v0 ++ v) :: rest) k' = some (v0 ++ v) from by
          simp [lookupCol, h'],
          if_pos (h'.symm.trans h0 : k' = k), lookupColD_cons, if_pos h0]
      · rw [show lookupCol ((k0, v0 ++ v) :: rest) k' = lookupCol rest k' from by
          simp [lookupCol, h'],
          if_neg (fun hh : k' = k => h' (h0.trans hh.symm)),
          show lookupCol ((k0, v0) :: rest) k' = lookupCol rest k' from by
            simp [lookupCol, h']]
    · rw [show appendCol ((k0, v0) :: rest) k v = (k0, v0) :: appendCol rest k v
        from by simp [appendCol, h0]]
      by_cases h' : k0 = k'
      · rw [show lookupCol ((k0, v0) :: appendCol rest k v) k' = some v0 from by
          simp [lookupCol, h'],
          if_neg (fun hh : k' = k => h0 (h'.trans hh)),
          show lookupCol ((k0, v0) :: rest) k' = some v0 from by simp [lookupCol, h']]
      · rw [show lookupCol ((k0, v0) :: appendCol rest k v) k' =
            lookupCol (appendCol rest k v) k' from by simp [lookupCol, h'],
          ih,
          show lookupCol ((k0, v0) :: rest) k' = lookupCol rest k' from by
            simp [lookupCol, h'],
          lookupColD_cons, if_neg h0]

theorem lookupColD_appendCol (m : ColMap) (k k' : String) (v : List String) :
    lookupColD (appendCol m k v) k' =
      if k' = k then lookupColD m k ++ v else lookupColD m k' := by
  by_cases h : k' = k <;> simp [lookupColD, lookupCol_appendCol, h]

theorem mem_colKeys_appendCol (m : ColMap) (k k' : String) (v : List String) :
    k' ∈ colKeys (appendCol m k v) ↔ k' ∈ colKeys m ∨ k' = k := by
  induction m with
  | nil => simp [appendCol, colKeys]
  | cons p rest ih =>
    obtain ⟨k0, v0⟩ := p
    by_cases h0 : k0 = k
    · rw [show appendCol ((k0, v0) :: rest) k v = (k0, v0 ++ v) :: rest from by
        simp [appendCol, h0]]
      rw [colKeys_cons, colKeys_cons, List.mem_cons, h0]
      tauto
    · rw [show appendCol ((k0, v0) :: rest) k v = (k0, v0) :: appendCol rest k v
        from by simp [appendCol, h0]]
      rw [colKeys_cons, colKeys_cons, List.mem_cons, List.mem_cons, ih]
      tauto

theorem colKeys_appendCol_of_not_mem {m : ColMap} {k : String}
    (h : k ∉ colKeys m) (v : List String) :
    colKeys (appendCol m k v) = colKeys m ++ [k] := by
  rw [appendCol_of_not_mem h v]
  simp [colKeys]

theorem nodup_colKeys_appendCol {m : ColMap} {k : String} (v : List String)
    (h : (colKeys m).Nodup) : (colKeys (appendCol m k v)).Nodup := by
  induction m with
  | nil => simp [appendCol, colKeys]
  | cons p rest ih =>
    obtain ⟨k0, v0⟩ := p
    rw [colKeys_cons, List.nodup_cons] at h
    by_cases h0 : k0 = k
    · rw [show appendCol ((k0, v0) :: rest) k v = (k0, v0 ++ v) :: rest from by
        simp [appendCol, h0]]
      rw [colKeys_cons, List.nodup_cons]
      exact h
    · rw [show appendCol ((k0, v0) :: rest) k v = (k0, v0) :: appendCol rest k v
        from by simp [appendCol, h0]]
      rw [colKeys_cons, List.nodup_cons]
      refine ⟨?_, ih h.2⟩
      rw [mem_colKeys_appendCol]
      rintro (hm | rfl)
      · exact h.1 hm
      · exact h0 rfl

theorem lookupColD_merge {b : ColMap} (hb : (colKeys b).Nodup) :
    ∀ (a : ColMap) (k : String),
      lookupColD (mergeColMap a b) k = lookupColD a k ++ lookupColD b k := by
  induction b with
  | nil => intro a k; simp [mergeColMap, lookupColD, lookupCol]
  | cons p rest ih =>
    obtain ⟨k0, v0⟩ := p
    rw [colKeys_cons, List.nodup_cons] at hb
    obtain ⟨hk0, hrest⟩ := hb
    intro a k
    have hmerge : mergeColMap a ((k0, v0) :: rest) =
        mergeColMap (appendCol a k0 v0) rest := rfl
    rw [hmerge, ih hrest (appendCol a k0 v0) k, lookupColD_appendCol,
      lookupColD_cons]
    by_cases h : k = k0
    · rw [if_pos h, if_pos (h.symm : k0 = k), h,
        lookupColD_nil_of_not_mem hk0]
      simp
    · rw [if_neg h, if_neg (fun hh : k0 = k => h hh.symm)]

theorem lookupCol_merge {b : ColMap} (hb : (colKeys b).Nodup) :
    ∀ (a : ColMap) (k : String),
      lookupCol (mergeColMap a b) k =
        if k ∈ colKeys b then some (lookupColD a k ++ lookupColD b k)
        else lookupCol a k := by
  induction b with
  | nil => intro a k; simp [mergeColMap, colKeys]
  | cons p rest ih =>
    obtain ⟨k0, v0⟩ := p
    rw [colKeys_cons, List.nodup_cons] at hb
    obtain ⟨hk0, hrest⟩ := hb
    intro a k
    have hmerge : mergeColMap a ((k0, v0) :: rest) =
        mergeColMap (appendCol a k0 v0) rest := rfl
    rw [hmerge, ih hrest (appendCol a k0 v0) k]
    rw [colKeys_cons]
    by_cases hkrest : k ∈ colKeys rest
    · rw [if_pos hkrest, if_pos (List.mem_cons_of_mem k0 hkrest)]
      have hne : ¬(k = k0) := fun hh => hk0 (hh ▸ hkrest)
      rw [lookupColD_appendCol, if_neg hne, lookupColD_cons,
        if_neg (fun hh : k0 = k => hne hh.symm)]
    · rw [if_neg hkrest, lookupCol_appendCol]
      by_cases hk : k = k0
      · rw [if_pos hk, if_pos (hk ▸ List.mem_cons_self k0 (colKeys rest)),
          lookupColD_cons, if_pos hk.symm, hk]
      · rw [if_neg hk, if_neg (by
          rw [List.mem_cons]
          exact fun h => h.elim hk hkrest)]

theorem mem_colKeys_merge {b : ColMap} (hb : (colKeys b).Nodup) :
    ∀ (a : ColMap) (k : String),
      k ∈ colKeys (mergeColMap a b) ↔ k ∈ colKeys a ∨ k ∈ colKeys b := by
  induction b with
  | nil => intro a k; simp [mergeColMap, colKeys]
  | cons p rest ih =>
    obtain ⟨k0, v0⟩ := p
    rw [colKeys_cons, List.nodup_cons] at hb
    obtain ⟨hk0, hrest⟩ := hb
    intro a k
    have hmerge : mergeColMap a ((k0, v0) :: rest) =
        mergeColMap (appendCol a k0 v0) rest := rfl
    rw [hmerge, ih hrest (appendCol a k0 v0) k, mem_colKeys_appendCol,
      colKeys_cons, List.mem_cons]
    tauto

theorem nodup_colKeys_merge {a b : ColMap} (ha : (colKeys a).Nodup)
    (hb : (colKeys b).Nodup) : (colKeys (mergeColMap a b)).Nodup := by
  induction b generalizing a with
  | nil => exact ha
  | cons p rest ih =>
    obtain ⟨k0, v0⟩ := p
    simp only [colKeys, List.map_cons, List.nodup_cons] at hb
    exact ih (nodup_colKeys_appendCol v0 ha) hb.2

theorem lookupColD_foldl_merge (k : String) :
    ∀ (maps : List ColMap) (a : ColMap), (∀ m ∈ maps, (colKeys m).Nodup) →
      lookupColD (maps.foldl mergeColMap a) k =
        lookupColD a k ++ (maps.map (fun m => lookupColD m k)).flatten := by
  intro maps
  induction maps with
  | nil => intro a _; simp
  | cons b rest ih =>
    intro a hnodup
    rw [List.foldl_cons,
      ih (mergeColMap a b) (fun m hm => hnodup m (List.mem_cons_of_mem b hm)),
      lookupColD_merge (hnodup b (List.mem_cons_self b rest))]
    simp [List.append_assoc]

/-- C9: merging per-device column maps appends the value lists of equal
column names in device-iteration order (the list monoid), never replacing
an earlier device's list; and the ordered-append merge is associative up
to Python dict equality. -/
theorem spec_C9_merge_append_assoc (maps : List ColMap)
    (hmaps : ∀ m ∈ maps, (colKeys m).Nodup) (k : String) :
    lookupColD (mergeDeviceResults maps) k =
      (maps.map (fun m => lookupColD m k)).flatten ∧
    (∀ a b c : ColMap, (colKeys b).Nodup → (colKeys c).Nodup →
      pyDictEq (mergeColMap (mergeColMap a b) c)
        (mergeColMap a (mergeColMap b c))) := by
  constructor
  · rw [mergeDeviceResults, lookupColD_foldl_merge k maps [] hmaps]
    rfl
  · intro a b c hb hc k'
    have hbc : (colKeys (mergeColMap b c)).Nodup := nodup_colKeys_merge hb hc
    rw [lookupCol_merge hc, lookupCol_merge hbc]
    by_cases hkc : k' ∈ colKeys c
    · rw [if_pos hkc, if_pos ((mem_colKeys_merge hc b k').2 (Or.inr hkc)),
        lookupColD_merge hb, lookupColD_merge hc]
      rw [List.append_assoc]
    · rw [if_neg hkc, lookupCol_merge hb]
      by_cases hkb : k' ∈ colKeys b
      · rw [if_pos hkb, if_pos ((mem_colKeys_merge hc b k').2 (Or.inl hkb)),
          lookupColD_merge hc, lookupColD_nil_of_not_mem hkc]
        simp
      · rw [if_neg hkb, if_neg (by
          rw [mem_colKeys_merge hc b k']
          exact fun h => h.elim hkb hkc)]

/-- Witness for C9 at three concrete device maps. -/
theorem spec_C9_merge_append_assoc_witness :
    lookupColD (mergeDeviceResults
      [[("filesystemName", ["fs1"])],
       [("filesystemName", ["fs2"]), ("id", ["7"])],
       [("filesystemName", ["fs3"])]]) "filesystemName" = ["fs1", "fs2", "fs3"] ∧
    lookupCol
      (mergeColMap (mergeColMap [("filesystemName", ["fs1"])]
          [("filesystemName", ["fs2"]), ("id", ["7"])])
        [("filesystemName", ["fs3"])]) "filesystemName" =
    lookupCol
      (mergeColMap [("filesystemName", ["fs1"])]
        (mergeColMap [("filesystemName", ["fs2"]), ("id", ["7"])]
          [("filesystemName", ["fs3"])])) "filesystemName" := by
  have h := spec_C9_merge_append_assoc
    [[("filesystemName", ["fs1"])],
     [("filesystemName", ["fs2"]), ("id", ["7"])],
     [("filesystemName", ["fs3"])]]
    (by
      intro m hm
      simp only [List.mem_cons, List.mem_singleton] at hm
      rcases hm with rfl | rfl | rfl | h
      · decide
      · decide
      · decide
      · simp at h)
    "filesystemName"
  refine ⟨?_, ?_⟩
  · rw [h.1]
    rfl
  · exact h.2 [("filesystemName", ["fs1"])]
      [("filesystemName", ["fs2"]), ("id", ["7"])]
      [("filesystemName", ["fs3"])] (by decide) (by decide) "filesystemName"

end VscFs
